import Mathlib

/-!
Verification of the deployment orchestrator of the proxmox-homelab-template
repository against its natural-language specification.

The Python sources embedded here (shallowly, as executable Lean functions):
  - scripts/lib/service_discovery.py : ServiceDiscovery.get_deployment_order
  - scripts/lib/deployment.py        : ProxmoxDeployer._wait_for_task,
      _wait_for_container_ready, _execute_in_container,
      _upload_file_to_container, deploy_single_service (config normalization),
      _create_container (creation parameters), setup_networking
  - scripts/deploy.py                : deploy_services_impl

Side effects that carry no data (console.print progress output, time.sleep)
are not modelled; everything that decides control flow is.
-/

/-! # Dependency resolver (service_discovery.py, get_deployment_order)

The Python code builds a dependency map restricted to the requested service
list and runs a depth-first traversal with `visited` and `visiting` sets.
`get_service_info` may return None for a requested name; the map then has no
entry for it and `service_deps.get(service, [])` yields `[]`.  We abstract
`get_service_info(s).dependencies` as a lookup `info : String → Option (List
String)`.

The Python recursion terminates because each nested `visit` frame adds a new
element of the requested list to `visiting`; its depth is therefore bounded by
`services.length`.  The embedding makes this explicit with a structural fuel
argument fixed to `services.length + 1`, which the proofs show is never
exhausted on any reachable call.
-/

/-- State of the depth-first traversal in `get_deployment_order`:
the output list `ordered`, and the `visited` / `visiting` sets. -/
structure DfsState where
  ordered : List String
  visited : Finset String
  visiting : Finset String

/-- Dependencies of `s` as the traversal sees them: the Python code stores
`service_deps[s] = [dep for dep in info(s).dependencies if dep in services]`
for every `s` in `services` with a discoverable info, and `visit` reads
`service_deps.get(s, [])`. -/
def fdeps (info : String → Option (List String)) (services : List String)
    (s : String) : List String :=
  match info s with
  | some ds => if s ∈ services then ds.filter (fun d => d ∈ services) else []
  | none => []

/-- One `visit(service)` call of the Python resolver.  A node already in
`visiting` is a cycle: the code prints a diagnostic and returns (the edge is
treated as satisfied).  A node in `visited` returns.  Otherwise the node is
marked visiting, its (filtered) dependencies are visited in order — the Python
`for dep in service_deps.get(service, []): if dep in services: visit(dep)`
loop is the fold — and the node is unmarked, recorded visited and appended to
`ordered`.  `fuel` bounds the recursion depth (see module comment). -/
def visitFuel (info : String → Option (List String)) (services : List String) :
    Nat → String → DfsState → DfsState
  | 0, _, st => st
  | Nat.succ n, s, st =>
    if s ∈ st.visiting then st
    else if s ∈ st.visited then st
    else
      let st1 : DfsState := { st with visiting := insert s st.visiting }
      let st2 := (fdeps info services s).foldl
        (fun acc d => if d ∈ services then visitFuel info services n d acc else acc) st1
      { ordered := st2.ordered ++ [s],
        visited := insert s st2.visited,
        visiting := st2.visiting.erase s }

/-- The resolver `get_deployment_order(services)`: visit every requested
service in input order starting from empty state, and return `ordered`. -/
def getDeploymentOrder (info : String → Option (List String))
    (services : List String) : List String :=
  (services.foldl
    (fun st s => visitFuel info services (services.length + 1) s st)
    { ordered := [], visited := ∅, visiting := ∅ }).ordered

/-- Declared required dependencies of a service (`service.json`
`dependencies.required`, `[]` when the service is not discoverable). -/
def declaredDeps (info : String → Option (List String)) (s : String) :
    List String :=
  (info s).getD []

/-- Index of the first occurrence of `x` (the length of the list when
absent); used to state precedence in the resolved order. -/
def firstIdx (x : String) : List String → Nat
  | [] => 0
  | y :: ys => if y = x then 0 else firstIdx x ys + 1

/-! ## Basic invariants of the traversal -/

/-- Invariant tying the three state components together: `ordered` has no
duplicates, its members are exactly `visited`, and `visited` and `visiting`
are disjoint. -/
def Inv0 (st : DfsState) : Prop :=
  st.ordered.Nodup ∧ (∀ x, x ∈ st.ordered ↔ x ∈ st.visited) ∧
    ∀ x ∈ st.visited, x ∉ st.visiting

/-- Generic preservation of a predicate along the dependency fold. -/
theorem foldl_pres {α : Type} {P : α → Prop} (f : α → String → α)
    (hf : ∀ a d, P a → P (f a d)) :
    ∀ (l : List String) (a : α), P a → P (l.foldl f a) := by
  intro l
  induction l with
  | nil => intro a h; exact h
  | cons d ds ih => intro a h; exact ih _ (hf a d h)

/-- Each `visit` call restores the `visiting` set it was given (the Python
code removes from `visiting` exactly what it added). -/
theorem visitFuel_visiting (info : String → Option (List String))
    (services : List String) :
    ∀ (n : Nat) (s : String) (st : DfsState),
      (visitFuel info services n s st).visiting = st.visiting := by
  intro n
  induction n with
  | zero => intro s st; rfl
  | succ n ih =>
    intro s st
    simp only [visitFuel]
    by_cases h1 : s ∈ st.visiting
    · simp [h1]
    · by_cases h2 : s ∈ st.visited
      · simp [h1, h2]
      · simp only [if_neg h1, if_neg h2]
        have hfold := foldl_pres
          (P := fun acc : DfsState => acc.visiting = insert s st.visiting)
          (fun acc d => if d ∈ services then visitFuel info services n d acc else acc)
          (by
            intro acc d hacc
            by_cases hd : d ∈ services
            · simpa [hd, ih] using hacc
            · simpa [hd] using hacc)
          (fdeps info services s)
          { st with visiting := insert s st.visiting }
          rfl
        simp only [hfold]
        exact Finset.erase_insert h1

/-- Visiting never removes anything from `visited`. -/
theorem visitFuel_mono (info : String → Option (List String))
    (services : List String) :
    ∀ (n : Nat) (s : String) (st : DfsState),
      st.visited ⊆ (visitFuel info services n s st).visited := by
  intro n
  induction n with
  | zero => intro s st; exact fun x hx => hx
  | succ n ih =>
    intro s st
    simp only [visitFuel]
    by_cases h1 : s ∈ st.visiting
    · simp [h1]
    · by_cases h2 : s ∈ st.visited
      · simp [h1, h2]
      · simp only [if_neg h1, if_neg h2]
        have hfold := foldl_pres
          (P := fun acc : DfsState => st.visited ⊆ acc.visited)
          (fun acc d => if d ∈ services then visitFuel info services n d acc else acc)
          (by
            intro acc d hacc
            by_cases hd : d ∈ services
            · simp only [if_pos hd]
              exact hacc.trans (ih d acc)
            · simpa [hd] using hacc)
          (fdeps info services s)
          { st with visiting := insert s st.visiting }
          (fun x hx => hx)
        intro x hx
        exact Finset.mem_insert_of_mem (hfold hx)

/-- Everything newly recorded as visited is either the visited node itself or
a member of the requested list (inner visits are guarded by membership). -/
theorem visitFuel_bound (info : String → Option (List String))
    (services : List String) :
    ∀ (n : Nat) (s : String) (st : DfsState),
      ∀ x ∈ (visitFuel info services n s st).visited,
        x ∈ st.visited ∨ x = s ∨ x ∈ services := by
  intro n
  induction n with
  | zero => intro s st x hx; exact Or.inl hx
  | succ n ih =>
    intro s st
    simp only [visitFuel]
    by_cases h1 : s ∈ st.visiting
    · simp only [if_pos h1]; exact fun x hx => Or.inl hx
    · by_cases h2 : s ∈ st.visited
      · simp only [if_neg h1, if_pos h2]; exact fun x hx => Or.inl hx
      · simp only [if_neg h1, if_neg h2]
        have hfold := foldl_pres
          (P := fun acc : DfsState =>
            ∀ x ∈ acc.visited, x ∈ st.visited ∨ x ∈ services)
          (fun acc d => if d ∈ services then visitFuel info services n d acc else acc)
          (by
            intro acc d hacc
            by_cases hd : d ∈ services
            · simp only [if_pos hd]
              intro x hx
              rcases ih d acc x hx with h | h | h
              · exact hacc x h
              · exact Or.inr (h ▸ hd)
              · exact Or.inr h
            · simpa [hd] using hacc)
          (fdeps info services s)
          { st with visiting := insert s st.visiting }
          (fun x hx => Or.inl hx)
        intro x hx
        rcases Finset.mem_insert.mp hx with h | h
        · exact Or.inr (Or.inl h)
        · rcases hfold x h with h | h
          · exact Or.inl h
          · exact Or.inr (Or.inr h)

/-- The traversal preserves `Inv0`. -/
theorem visitFuel_inv0 (info : String → Option (List String))
    (services : List String) :
    ∀ (n : Nat) (s : String) (st : DfsState),
      Inv0 st → Inv0 (visitFuel info services n s st) := by
  intro n
  induction n with
  | zero => intro s st h; exact h
  | succ n ih =>
    intro s st hst
    simp only [visitFuel]
    by_cases h1 : s ∈ st.visiting
    · simpa [h1] using hst
    · by_cases h2 : s ∈ st.visited
      · simpa [if_neg h1, h2] using hst
      · simp only [if_neg h1, if_neg h2]
        obtain ⟨hnd, hiff, hdisj⟩ := hst
        have hst1 : Inv0 { st with visiting := insert s st.visiting } := by
          refine ⟨hnd, hiff, ?_⟩
          intro x hx
          simp only [Finset.mem_insert, not_or]
          exact ⟨fun hxs => h2 (hxs ▸ hx), hdisj x hx⟩
        have hfold := foldl_pres
          (P := fun acc : DfsState =>
            Inv0 acc ∧ acc.visiting = insert s st.visiting)
          (fun acc d => if d ∈ services then visitFuel info services n d acc else acc)
          (by
            intro acc d hacc
            by_cases hd : d ∈ services
            · simp only [if_pos hd]
              exact ⟨ih d acc hacc.1,
                (visitFuel_visiting info services n d acc).trans hacc.2⟩
            · simpa [hd] using hacc)
          (fdeps info services s)
          { st with visiting := insert s st.visiting }
          ⟨hst1, rfl⟩
        obtain ⟨⟨hnd2, hiff2, hdisj2⟩, hvis2⟩ := hfold
        have hsvisiting : s ∈ (((fdeps info services s).foldl
            (fun acc d => if d ∈ services then visitFuel info services n d acc else acc)
            { st with visiting := insert s st.visiting })).visiting := by
          rw [hvis2]; exact Finset.mem_insert_self s _
        have hsnot : s ∉ (((fdeps info services s).foldl
            (fun acc d => if d ∈ services then visitFuel info services n d acc else acc)
            { st with visiting := insert s st.visiting })).visited := by
          intro hmem
          exact hdisj2 s hmem hsvisiting
        refine ⟨?_, ?_, ?_⟩
        · simp only [List.nodup_append, List.nodup_cons, List.nodup_nil]
          refine ⟨hnd2, by simp, ?_⟩
          intro x hx
          simp only [List.mem_singleton]
          intro hxs
          exact hsnot (hxs ▸ ((hiff2 x).mp hx))
        · intro x
          simp only [List.mem_append, List.mem_singleton, Finset.mem_insert]
          constructor
          · rintro (hx | hx)
            · exact Or.inr ((hiff2 x).mp hx)
            · exact Or.inl hx
          · rintro (hx | hx)
            · exact Or.inr hx
            · exact Or.inl ((hiff2 x).mpr hx)
        · intro x hx
          rcases Finset.mem_insert.mp hx with hxs | hxv
          · subst hxs; exact Finset.not_mem_erase x _
          · intro hmem
            exact hdisj2 x hxv (Finset.mem_of_mem_erase hmem)

/-- A `visit` call on a node that is not mid-traversal records it as visited
(for positive fuel): this is the unconditional append at the end of the
Python `visit`. -/
theorem visitFuel_inserts (info : String → Option (List String))
    (services : List String) (n : Nat) (s : String) (st : DfsState)
    (hn : n ≠ 0) (hs : s ∉ st.visiting) :
    s ∈ (visitFuel info services n s st).visited := by
  cases n with
  | zero => exact absurd rfl hn
  | succ n =>
    simp only [visitFuel, if_neg hs]
    by_cases h2 : s ∈ st.visited
    · simp [h2]
    · simp only [if_neg h2]
      exact Finset.mem_insert_self s _

/-- Combined facts about the top-level loop `for service in services:
visit(service)` run from a state whose `visiting` set is empty. -/
theorem resolverRun_plain (info : String → Option (List String))
    (services : List String) :
    ∀ (l : List String) (st : DfsState), Inv0 st → st.visiting = ∅ →
      Inv0 (l.foldl
        (fun st s => visitFuel info services (services.length + 1) s st) st) ∧
      (l.foldl
        (fun st s => visitFuel info services (services.length + 1) s st) st).visiting = ∅ ∧
      (∀ s ∈ l, s ∈ (l.foldl
        (fun st s => visitFuel info services (services.length + 1) s st) st).visited) ∧
      (∀ x ∈ (l.foldl
        (fun st s => visitFuel info services (services.length + 1) s st) st).visited,
        x ∈ st.visited ∨ x ∈ l ∨ x ∈ services) := by
  intro l
  induction l with
  | nil =>
    intro st hinv hvis
    exact ⟨hinv, hvis, by simp, fun x hx => Or.inl hx⟩
  | cons s rest ih =>
    intro st hinv hvis
    simp only [List.foldl_cons]
    have hstep_inv : Inv0 (visitFuel info services (services.length + 1) s st) :=
      visitFuel_inv0 info services _ s st hinv
    have hstep_vis : (visitFuel info services (services.length + 1) s st).visiting = ∅ :=
      (visitFuel_visiting info services _ s st).trans hvis
    obtain ⟨hinv2, hvis2, hmem2, hbound2⟩ :=
      ih (visitFuel info services (services.length + 1) s st) hstep_inv hstep_vis
    refine ⟨hinv2, hvis2, ?_, ?_⟩
    · intro x hx
      rcases List.mem_cons.mp hx with hxs | hxr
      · subst hxs
        have hxin : x ∈ (visitFuel info services (services.length + 1) x st).visited :=
          visitFuel_inserts info services _ x st (Nat.succ_ne_zero _)
            (by rw [hvis]; exact Finset.not_mem_empty x)
        have := foldl_pres
          (P := fun acc : DfsState => x ∈ acc.visited)
          (fun st s => visitFuel info services (services.length + 1) s st)
          (fun acc d hacc => visitFuel_mono info services _ d acc hacc)
          rest (visitFuel info services (services.length + 1) x st) hxin
        exact this
      · exact hmem2 x hxr
    · intro x hx
      rcases hbound2 x hx with hx2 | hx2 | hx2
      · rcases visitFuel_bound info services _ s st x hx2 with h | h | h
        · exact Or.inl h
        · exact Or.inr (Or.inl (h ▸ List.mem_cons_self s rest))
        · exact Or.inr (Or.inr h)
      · exact Or.inr (Or.inl (List.mem_cons_of_mem s hx2))
      · exact Or.inr (Or.inr hx2)

/-- The resolved order has no duplicate service names. -/
theorem getDeploymentOrder_nodup (info : String → Option (List String))
    (services : List String) : (getDeploymentOrder info services).Nodup := by
  have h := resolverRun_plain info services services
    { ordered := [], visited := ∅, visiting := ∅ }
    ⟨List.nodup_nil, by simp, by simp⟩ rfl
  exact h.1.1

/-- The resolved order contains exactly the requested names. -/
theorem getDeploymentOrder_mem (info : String → Option (List String))
    (services : List String) (x : String) :
    x ∈ getDeploymentOrder info services ↔ x ∈ services := by
  have h := resolverRun_plain info services services
    { ordered := [], visited := ∅, visiting := ∅ }
    ⟨List.nodup_nil, by simp, by simp⟩ rfl
  obtain ⟨⟨hnd, hiff, hdisj⟩, hvis, hmem, hbound⟩ := h
  constructor
  · intro hx
    have hxv := (hiff x).mp hx
    rcases hbound x hxv with hfalse | hx2 | hx2
    · exact absurd hfalse (Finset.not_mem_empty x)
    · exact hx2
    · exact hx2
  · intro hx
    exact (hiff x).mpr (hmem x hx)

/-! ## Ordering facts (acyclic inputs)

The spec's ordering property cannot hold for cyclic inputs (it would require
two services to precede each other), so it is proved for dependency relations
that admit a rank function strictly decreasing along filtered dependency
edges — exactly acyclicity of the graph induced on the requested set. -/

theorem firstIdx_append_left (x : String) :
    ∀ (l l2 : List String), x ∈ l → firstIdx x (l ++ l2) = firstIdx x l := by
  intro l
  induction l with
  | nil => intro l2 h; exact absurd h (List.not_mem_nil x)
  | cons y ys ih =>
    intro l2 h
    by_cases hy : y = x
    · simp [firstIdx, hy]
    · have hx : x ∈ ys := by
        rcases List.mem_cons.mp h with h | h
        · exact absurd h.symm hy
        · exact h
      simp [firstIdx, hy, ih l2 hx]

theorem firstIdx_append_right (x : String) :
    ∀ (l l2 : List String), x ∉ l →
      firstIdx x (l ++ l2) = l.length + firstIdx x l2 := by
  intro l
  induction l with
  | nil => intro l2 _; simp
  | cons y ys ih =>
    intro l2 h
    have hy : y ≠ x := fun hyx => h (hyx ▸ List.mem_cons_self y ys)
    have hx : x ∉ ys := fun hxs => h (List.mem_cons_of_mem y hxs)
    show firstIdx x (y :: (ys ++ l2)) = (y :: ys).length + firstIdx x l2
    simp only [firstIdx, if_neg hy, List.length_cons]
    rw [ih l2 hx]
    omega

theorem firstIdx_lt_length (x : String) :
    ∀ l : List String, x ∈ l → firstIdx x l < l.length := by
  intro l
  induction l with
  | nil => intro h; exact absurd h (List.not_mem_nil x)
  | cons y ys ih =>
    intro h
    by_cases hy : y = x
    · simp [firstIdx, hy]
    · have hx : x ∈ ys := by
        rcases List.mem_cons.mp h with h | h
        · exact absurd h.symm hy
        · exact h
      simp only [firstIdx, if_neg hy, List.length_cons]
      exact Nat.succ_lt_succ (ih hx)

/-- A list respects the filtered dependency edges: every dependency of a
member is a member and occurs strictly earlier. -/
def Good (info : String → Option (List String)) (services : List String)
    (l : List String) : Prop :=
  ∀ a b, a ∈ l → b ∈ fdeps info services a →
    b ∈ l ∧ firstIdx b l < firstIdx a l

/-- Appending a node whose filtered dependencies are all already present
preserves `Good`. -/
theorem Good.append (info : String → Option (List String))
    (services : List String) (l : List String) (s : String)
    (hs : s ∉ l) (hg : Good info services l)
    (hd : ∀ b ∈ fdeps info services s, b ∈ l) :
    Good info services (l ++ [s]) := by
  intro a b ha hb
  rcases List.mem_append.mp ha with hal | has
  · obtain ⟨hbl, hlt⟩ := hg a b hal hb
    refine ⟨List.mem_append_left _ hbl, ?_⟩
    rw [firstIdx_append_left b l [s] hbl, firstIdx_append_left a l [s] hal]
    exact hlt
  · have has : a = s := by simpa using has
    subst has
    have hbl : b ∈ l := hd b hb
    refine ⟨List.mem_append_left _ hbl, ?_⟩
    rw [firstIdx_append_left b l [a] hbl, firstIdx_append_right a l [a] hs]
    have : firstIdx a [a] = 0 := by simp [firstIdx]
    rw [this]
    simpa using firstIdx_lt_length b l hbl

/-- Filtered dependencies are always members of the requested list. -/
theorem fdeps_mem (info : String → Option (List String))
    (services : List String) (a b : String)
    (hb : b ∈ fdeps info services a) : b ∈ services := by
  cases hinfo : info a with
  | none => simp [fdeps, hinfo] at hb
  | some ds =>
    by_cases ha : a ∈ services
    · simp only [fdeps, hinfo, if_pos ha, List.mem_filter, decide_eq_true_eq] at hb
      exact hb.2
    · simp [fdeps, hinfo, ha] at hb

/-- Main lemma for the ordering property: when a rank function strictly
decreases along filtered dependency edges (the induced graph is acyclic),
every `visit` call preserves `Good` on `ordered`, records its argument as
visited, and the cycle branch is never taken.  The fuel hypothesis
`card (services \ visiting) < n` is established at the top-level call and
maintained because each nested frame moves a fresh requested name into
`visiting`. -/
theorem visitFuel_rank (info : String → Option (List String))
    (services : List String) (rank : String → Nat)
    (hrank : ∀ a d, d ∈ fdeps info services a → rank d < rank a) :
    ∀ (n : Nat) (s : String) (st : DfsState),
      s ∈ services →
      (services.toFinset \ st.visiting).card < n →
      (∀ v ∈ st.visiting, rank s < rank v) →
      Inv0 st → Good info services st.ordered →
      Good info services (visitFuel info services n s st).ordered ∧
        s ∈ (visitFuel info services n s st).visited := by
  intro n
  induction n with
  | zero => intro s st _ hcard _ _ _; omega
  | succ n ih =>
    intro s st hs hcard hguard hinv hgood
    by_cases h1 : s ∈ st.visiting
    · exact absurd (hguard s h1) (lt_irrefl _)
    · by_cases h2 : s ∈ st.visited
      · constructor
        · simp only [visitFuel, if_neg h1, if_pos h2]
          exact hgood
        · simp only [visitFuel, if_neg h1, if_pos h2]
          exact h2
      · -- the full branch: mark visiting, fold over dependencies, append
        have key : ∀ (l : List String) (acc : DfsState),
            (∀ d ∈ l, ∀ v ∈ acc.visiting, rank d < rank v) →
            (services.toFinset \ acc.visiting).card < n →
            Inv0 acc → Good info services acc.ordered →
            Inv0 (l.foldl (fun acc d =>
              if d ∈ services then visitFuel info services n d acc else acc) acc) ∧
            Good info services (l.foldl (fun acc d =>
              if d ∈ services then visitFuel info services n d acc else acc) acc).ordered ∧
            acc.visited ⊆ (l.foldl (fun acc d =>
              if d ∈ services then visitFuel info services n d acc else acc) acc).visited ∧
            (l.foldl (fun acc d =>
              if d ∈ services then visitFuel info services n d acc else acc) acc).visiting
              = acc.visiting ∧
            (∀ d ∈ l, d ∈ services → d ∈ (l.foldl (fun acc d =>
              if d ∈ services then visitFuel info services n d acc else acc) acc).visited) := by
          intro l
          induction l with
          | nil =>
            intro acc _ _ hinv hgood
            exact ⟨hinv, hgood, fun x hx => hx, rfl, by simp⟩
          | cons d ds ihl =>
            intro acc hg hc hinva hgooda
            simp only [List.foldl_cons]
            by_cases hd : d ∈ services
            · simp only [if_pos hd]
              have hstep := ih d acc hd hc
                (fun v hv => hg d (List.mem_cons_self d ds) v hv) hinva hgooda
              have hinvb := visitFuel_inv0 info services n d acc hinva
              have hveq : (visitFuel info services n d acc).visiting = acc.visiting :=
                visitFuel_visiting info services n d acc
              obtain ⟨hIG, hgoodr, hsub, hveq2, hmem⟩ := ihl (visitFuel info services n d acc)
                (fun d2 hd2 v hv =>
                  hg d2 (List.mem_cons_of_mem d hd2) v (hveq ▸ hv))
                (by rw [hveq]; exact hc) hinvb hstep.1
              refine ⟨hIG, hgoodr, (visitFuel_mono info services n d acc).trans hsub,
                hveq2.trans hveq, ?_⟩
              intro d2 hd2 hd2s
              rcases List.mem_cons.mp hd2 with heq | hmem2
              · exact heq ▸ hsub hstep.2
              · exact hmem d2 hmem2 hd2s
            · simp only [if_neg hd]
              obtain ⟨hIG, hgoodr, hsub, hveq2, hmem⟩ := ihl acc
                (fun d2 hd2 v hv => hg d2 (List.mem_cons_of_mem d hd2) v hv)
                hc hinva hgooda
              refine ⟨hIG, hgoodr, hsub, hveq2, ?_⟩
              intro d2 hd2 hd2s
              rcases List.mem_cons.mp hd2 with heq | hmem2
              · exact absurd hd2s (heq ▸ hd)
              · exact hmem d2 hmem2 hd2s
        -- instantiate the fold lemma at the marked state
        have hsT : s ∈ services.toFinset := List.mem_toFinset.mpr hs
        have hsTV : s ∈ services.toFinset \ st.visiting :=
          Finset.mem_sdiff.mpr ⟨hsT, h1⟩
        have hinv1 : Inv0 { st with visiting := insert s st.visiting } := by
          refine ⟨hinv.1, hinv.2.1, ?_⟩
          intro x hx
          simp only [Finset.mem_insert, not_or]
          exact ⟨fun hxs => h2 (hxs ▸ hx), hinv.2.2 x hx⟩
        obtain ⟨hinv2, hgood2, hsub2, hveq2, hmem2⟩ :=
          key (fdeps info services s) { st with visiting := insert s st.visiting }
            (by
              intro d hd v hv
              have hds : rank d < rank s := hrank s d hd
              rcases Finset.mem_insert.mp hv with heq | hv2
              · exact heq ▸ hds
              · exact hds.trans (hguard v hv2))
            (by
              have heq : services.toFinset \ insert s st.visiting
                  = (services.toFinset \ st.visiting).erase s := by
                ext x
                simp only [Finset.mem_sdiff, Finset.mem_insert, Finset.mem_erase, not_or]
                tauto
              have hpos : 0 < (services.toFinset \ st.visiting).card :=
                Finset.card_pos.mpr ⟨s, hsTV⟩
              rw [heq, Finset.card_erase_of_mem hsTV]
              omega)
            hinv1 hgood
        have hsvis2 : s ∈ ((fdeps info services s).foldl (fun acc d =>
            if d ∈ services then visitFuel info services n d acc else acc)
            { st with visiting := insert s st.visiting }).visiting := by
          rw [hveq2]; exact Finset.mem_insert_self s _
        have hsnotvisited : s ∉ ((fdeps info services s).foldl (fun acc d =>
            if d ∈ services then visitFuel info services n d acc else acc)
            { st with visiting := insert s st.visiting }).visited :=
          fun hmem => hinv2.2.2 s hmem hsvis2
        have hsnotordered : s ∉ ((fdeps info services s).foldl (fun acc d =>
            if d ∈ services then visitFuel info services n d acc else acc)
            { st with visiting := insert s st.visiting }).ordered :=
          fun hmem => hsnotvisited ((hinv2.2.1 s).mp hmem)
        constructor
        · simp only [visitFuel, if_neg h1, if_neg h2]
          refine Good.append info services _ s hsnotordered hgood2 ?_
          intro b hb
          have hbs : b ∈ services := fdeps_mem info services s b hb
          exact (hinv2.2.1 b).mpr (hmem2 b hb hbs)
        · exact visitFuel_inserts info services (n + 1) s st (Nat.succ_ne_zero n) h1

/-- Declared dependencies inside the requested set are filtered dependencies. -/
theorem mem_fdeps_of_declared (info : String → Option (List String))
    (services : List String) (a b : String) (ha : a ∈ services)
    (hb : b ∈ services) (hdep : b ∈ declaredDeps info a) :
    b ∈ fdeps info services a := by
  cases hinfo : info a with
  | none => simp [declaredDeps, hinfo] at hdep
  | some ds =>
    simp only [declaredDeps, hinfo, Option.getD_some] at hdep
    simp only [fdeps, hinfo, if_pos ha, List.mem_filter, decide_eq_true_eq]
    exact ⟨hdep, hb⟩

/-- For acyclic induced dependency graphs the whole resolver output is
`Good`: every filtered dependency precedes its dependent. -/
theorem getDeploymentOrder_good (info : String → Option (List String))
    (services : List String) (rank : String → Nat)
    (hrank : ∀ a d, d ∈ fdeps info services a → rank d < rank a) :
    Good info services (getDeploymentOrder info services) := by
  have main : ∀ (l : List String) (st : DfsState), (∀ s ∈ l, s ∈ services) →
      Inv0 st → st.visiting = ∅ → Good info services st.ordered →
      Inv0 (l.foldl
        (fun st s => visitFuel info services (services.length + 1) s st) st) ∧
      (l.foldl
        (fun st s => visitFuel info services (services.length + 1) s st) st).visiting = ∅ ∧
      Good info services (l.foldl
        (fun st s => visitFuel info services (services.length + 1) s st) st).ordered := by
    intro l
    induction l with
    | nil => intro st _ hinv hvis hgood; exact ⟨hinv, hvis, hgood⟩
    | cons s rest ih =>
      intro st hl hinv hvis hgood
      simp only [List.foldl_cons]
      have hs : s ∈ services := hl s (List.mem_cons_self s rest)
      have hcard : (services.toFinset \ st.visiting).card < services.length + 1 := by
        rw [hvis]
        have h1 : (services.toFinset \ (∅ : Finset String)).card
            = services.toFinset.card := by simp
        rw [h1]
        exact Nat.lt_succ_of_le services.toFinset_card_le
      have hguard : ∀ v ∈ st.visiting, rank s < rank v := by
        rw [hvis]; intro v hv; exact absurd hv (Finset.not_mem_empty v)
      have hstep := visitFuel_rank info services rank hrank
        (services.length + 1) s st hs hcard hguard hinv hgood
      exact ih (visitFuel info services (services.length + 1) s st)
        (fun x hx => hl x (List.mem_cons_of_mem s hx))
        (visitFuel_inv0 info services _ s st hinv)
        ((visitFuel_visiting info services _ s st).trans hvis)
        hstep.1
  exact (main services { ordered := [], visited := ∅, visiting := ∅ }
    (fun x hx => hx) ⟨List.nodup_nil, by simp, by simp⟩ rfl
    (by intro a b ha _; exact absurd ha (List.not_mem_nil a))).2.2

/-- A `visit` on a node currently mid-traversal is the identity (the cycle
branch of the Python code only prints a warning). -/
theorem visitFuel_of_visiting (info : String → Option (List String))
    (services : List String) (n : Nat) (s : String) (st : DfsState)
    (h : s ∈ st.visiting) : visitFuel info services n s st = st := by
  cases n with
  | zero => rfl
  | succ n => simp [visitFuel, h]

/-- Unfolding lemma for the full branch of `visit` (fuel left abstract so
that inner calls stay folded). -/
theorem visitFuel_succ (info : String → Option (List String))
    (services : List String) (n : Nat) (s : String) (st : DfsState)
    (h1 : s ∉ st.visiting) (h2 : s ∉ st.visited) :
    visitFuel info services (n + 1) s st =
      { ordered := ((fdeps info services s).foldl
          (fun acc d => if d ∈ services then visitFuel info services n d acc else acc)
          { st with visiting := insert s st.visiting }).ordered ++ [s],
        visited := insert s ((fdeps info services s).foldl
          (fun acc d => if d ∈ services then visitFuel info services n d acc else acc)
          { st with visiting := insert s st.visiting }).visited,
        visiting := ((fdeps info services s).foldl
          (fun acc d => if d ∈ services then visitFuel info services n d acc else acc)
          { st with visiting := insert s st.visiting }).visiting.erase s } := by
  simp [visitFuel, if_neg h1, if_neg h2]

/-- A fold of visits over nodes that are all mid-traversal (or filtered out)
is the identity. -/
theorem foldl_of_visiting (info : String → Option (List String))
    (services : List String) (n : Nat) :
    ∀ (l : List String) (acc : DfsState), (∀ d ∈ l, d ∈ acc.visiting) →
      l.foldl (fun acc d =>
        if d ∈ services then visitFuel info services n d acc else acc) acc = acc := by
  intro l
  induction l with
  | nil => intro acc _; rfl
  | cons d ds ih =>
    intro acc h
    simp only [List.foldl_cons]
    by_cases hd : d ∈ services
    · rw [if_pos hd, visitFuel_of_visiting info services n d acc
        (h d (List.mem_cons_self d ds))]
      exact ih acc (fun x hx => h x (List.mem_cons_of_mem d hx))
    · rw [if_neg hd]
      exact ih acc (fun x hx => h x (List.mem_cons_of_mem d hx))

/-- Resolving a single requested service always yields exactly that service:
dependencies pointing outside the requested set are filtered away, and a
self-loop hits the cycle branch. -/
theorem getDeploymentOrder_singleton (info : String → Option (List String))
    (b : String) : getDeploymentOrder info [b] = [b] := by
  unfold getDeploymentOrder
  simp only [List.foldl_cons, List.foldl_nil]
  rw [show ([b] : List String).length + 1 = 1 + 1 by simp]
  rw [visitFuel_succ info [b] 1 b
    { ordered := [], visited := ∅, visiting := ∅ }
    (Finset.not_mem_empty b) (Finset.not_mem_empty b)]
  rw [foldl_of_visiting info [b] 1 (fdeps info [b] b)
    { ordered := [], visited := ∅, visiting := insert b ∅ }
    (by
      intro d hd
      have hdb : d = b := by simpa using fdeps_mem info [b] b d hd
      simp [hdb])]
  rfl

/-! ## Claims C1, C2, C3 -/

/-- Cyclic two-service configuration used to exhibit the failure of the
unrestricted ordering claim: a requires b and b requires a. -/
def cycleInfo : String → Option (List String) :=
  fun s => if s = "a" then some ["b"] else if s = "b" then some ["a"] else none

/-- C1 counterexample: with the cyclic input a⇄b (both requested), service
"b" declares "a" as a dependency, yet the resolver returns ["b", "a"], in
which "a" does not precede "b".  The claim as stated (for every dependency
set) is therefore false on the code. -/
theorem c1_cycle_counterexample :
    "a" ∈ declaredDeps cycleInfo "b" ∧ "b" ∈ ["a", "b"] ∧ "a" ∈ ["a", "b"] ∧
    getDeploymentOrder cycleInfo ["a", "b"] = ["b", "a"] ∧
    ¬ firstIdx "a" (getDeploymentOrder cycleInfo ["a", "b"])
        < firstIdx "b" (getDeploymentOrder cycleInfo ["a", "b"]) := by
  decide

/-- C1 (amended): whenever the dependency relation restricted to the
requested set is acyclic — witnessed by a rank strictly decreasing along
filtered edges — a service B declared as dependency of a requested service A,
with both requested, appears in the resolved order strictly before A. -/
theorem c1_dependency_precedes_in_acyclic_order
    (info : String → Option (List String)) (services : List String)
    (rank : String → Nat)
    (hrank : ∀ a d, d ∈ fdeps info services a → rank d < rank a)
    (a b : String) (ha : a ∈ services) (hb : b ∈ services)
    (hdep : b ∈ declaredDeps info a) :
    b ∈ getDeploymentOrder info services ∧
    firstIdx b (getDeploymentOrder info services)
      < firstIdx a (getDeploymentOrder info services) := by
  have hfd := mem_fdeps_of_declared info services a b ha hb hdep
  have hgood := getDeploymentOrder_good info services rank hrank
  exact hgood a b ((getDeploymentOrder_mem info services a).mpr ha) hfd

/-- Dependency data of the spec scenario: vpn-gateway requires pihole. -/
def pvInfo : String → Option (List String) :=
  fun s => if s = "vpn-gateway" then some ["pihole"] else
    if s = "pihole" then some [] else none

/-- Rank witnessing acyclicity of the pvInfo graph. -/
def pvRank : String → Nat := fun s => if s = "vpn-gateway" then 1 else 0

/-- C1 witness: concrete acyclic instance (the spec scenario
`vpn-gateway` → `pihole`), with each hypothesis discharged. -/
theorem c1_dependency_precedes_witness :
    "pihole" ∈ getDeploymentOrder pvInfo ["vpn-gateway", "pihole"] ∧
    firstIdx "pihole" (getDeploymentOrder pvInfo ["vpn-gateway", "pihole"])
      < firstIdx "vpn-gateway" (getDeploymentOrder pvInfo ["vpn-gateway", "pihole"]) :=
  c1_dependency_precedes_in_acyclic_order pvInfo ["vpn-gateway", "pihole"] pvRank
    (by
      intro a d hd
      by_cases hv : a = "vpn-gateway"
      · subst hv
        have he : fdeps pvInfo ["vpn-gateway", "pihole"] "vpn-gateway"
            = ["pihole"] := by decide
        rw [he] at hd
        have hdp : d = "pihole" := by simpa using hd
        subst hdp
        decide
      · by_cases hp : a = "pihole"
        · subst hp
          have he : fdeps pvInfo ["vpn-gateway", "pihole"] "pihole" = [] := by
            decide
          rw [he] at hd
          exact absurd hd (List.not_mem_nil d)
        · have he : fdeps pvInfo ["vpn-gateway", "pihole"] a = [] := by
            simp [fdeps, pvInfo, hv, hp]
          rw [he] at hd
          exact absurd hd (List.not_mem_nil d))
    "vpn-gateway" "pihole" (by decide) (by decide) (by decide)

/-- C2: on every input — including cyclic ones — the resolver is a total
function (the embedding terminates by construction and has no failure
outcome, matching the Python code whose `visit` only prints on a cycle), and
its output lists each requested service exactly once: it is duplicate-free
and contains exactly the requested names. -/
theorem c2_resolver_total_each_name_once (info : String → Option (List String))
    (services : List String) :
    (getDeploymentOrder info services).Nodup ∧
    ∀ x, x ∈ getDeploymentOrder info services ↔ x ∈ services :=
  ⟨getDeploymentOrder_nodup info services, getDeploymentOrder_mem info services⟩

/-- C3: a declared dependency pointing outside the requested set is dropped
silently: it never appears in the output, and resolving the single-service
set containing only its dependent returns exactly that dependent. -/
theorem c3_external_dependencies_dropped (info : String → Option (List String))
    (requested : List String) (b c : String) (_hb : b ∈ requested)
    (hc : c ∉ requested) (_hdep : c ∈ declaredDeps info b) :
    c ∉ getDeploymentOrder info requested ∧
    getDeploymentOrder info [b] = [b] := by
  refine ⟨?_, getDeploymentOrder_singleton info b⟩
  intro hmem
  exact hc ((getDeploymentOrder_mem info requested c).mp hmem)

/-- Dependency data with an edge leaving the requested set: vpn-gateway
requires pihole, but only vpn-gateway is requested. -/
def vpnOnlyInfo : String → Option (List String) :=
  fun s => if s = "vpn-gateway" then some ["pihole"] else none

/-- C3 witness: resolving `{vpn-gateway}` alone while it declares `pihole`
(not requested) yields exactly `[vpn-gateway]` and never includes pihole. -/
theorem c3_external_dependencies_witness :
    "pihole" ∉ getDeploymentOrder vpnOnlyInfo ["vpn-gateway"] ∧
    getDeploymentOrder vpnOnlyInfo ["vpn-gateway"] = ["vpn-gateway"] :=
  c3_external_dependencies_dropped vpnOnlyInfo ["vpn-gateway"] "vpn-gateway"
    "pihole" (by decide) (by decide) (by decide)

/-! # Waiters (deployment.py, _wait_for_task and _wait_for_container_ready)

Both waiters are `for i in range(timeout)` loops polling once per iteration
with a one-second sleep, so iteration count equals poll count.  Poll results
are abstracted as functions from the attempt index. -/

/-- One poll of `proxmox.nodes(node).tasks(task_id).status.get()`: the API
call either raises or returns a dict with `status` and optional
`exitstatus`. -/
inductive TaskPoll where
  | apiError
  | result (status : String) (exitstatus : Option String)
deriving DecidableEq

/-- Outcome of `_wait_for_task`, with the number of polls performed.  Note
the loop body sits in `try ... except Exception: time.sleep(1)`, and the
`raise ProxmoxDeploymentError(...)` for a stopped task with non-OK
`exitstatus` is inside that `try`: being an `Exception`, it is caught by the
blanket handler, which sleeps and continues the loop.  The only reachable
outcomes of the function are therefore returning successfully or raising the
timeout `ProxmoxDeploymentError` after the loop. -/
inductive TaskWaitOutcome where
  | success (polls : Nat)
  | timeoutError (polls : Nat)
deriving DecidableEq

/-- Loop of `_wait_for_task` from attempt index `i` with `n` iterations
left. -/
def waitForTaskAux (polls : Nat → TaskPoll) : Nat → Nat → TaskWaitOutcome
  | i, 0 => .timeoutError i
  | i, Nat.succ n =>
    match polls i with
    | .result status ex =>
      if status = "stopped" then
        if ex = some "OK" then .success (i + 1)
        else waitForTaskAux polls (i + 1) n
      else waitForTaskAux polls (i + 1) n
    | .apiError => waitForTaskAux polls (i + 1) n

/-- `_wait_for_task(task_id, timeout=300)`. -/
def waitForTask (polls : Nat → TaskPoll) (timeout : Nat) : TaskWaitOutcome :=
  waitForTaskAux polls 0 timeout

/-- One poll of `_wait_for_container_ready`: the status query either raises
or returns the lifecycle status; if the status is `running` the liveness
probe (`echo ready` inside the container) either succeeds or raises. -/
inductive ReadyPoll where
  | apiError
  | status (s : String) (probeOk : Bool)
deriving DecidableEq

/-- Outcome of `_wait_for_container_ready` with the number of polls. -/
inductive ReadyWaitOutcome where
  | ready (polls : Nat)
  | timeoutError (polls : Nat)
deriving DecidableEq

/-- Loop of `_wait_for_container_ready` from attempt `i`, `n` iterations
left: a non-`running` status sleeps and retries; `running` with a failing
probe (exception swallowed by `except: pass`) also sleeps and retries;
`running` with a successful probe returns. -/
def waitForReadyAux (polls : Nat → ReadyPoll) : Nat → Nat → ReadyWaitOutcome
  | i, 0 => .timeoutError i
  | i, Nat.succ n =>
    match polls i with
    | .status s probe =>
      if s = "running" then
        if probe then .ready (i + 1)
        else waitForReadyAux polls (i + 1) n
      else waitForReadyAux polls (i + 1) n
    | .apiError => waitForReadyAux polls (i + 1) n

/-- `_wait_for_container_ready(container_id, timeout=180)`. -/
def waitForContainerReady (polls : Nat → ReadyPoll) (timeout : Nat) :
    ReadyWaitOutcome :=
  waitForReadyAux polls 0 timeout

/-- Success criterion of a ready poll: lifecycle status `running` and a
passing probe. -/
def readySuccess (p : ReadyPoll) : Prop :=
  p = .status "running" true

instance (p : ReadyPoll) : Decidable (readySuccess p) := by
  unfold readySuccess; infer_instance

theorem waitForTaskAux_never (polls : Nat → TaskPoll)
    (hnever : ∀ i, polls i ≠ .result "stopped" (some "OK")) :
    ∀ (n i : Nat), waitForTaskAux polls i n = .timeoutError (i + n) := by
  intro n
  induction n with
  | zero => intro i; simp [waitForTaskAux]
  | succ n ih =>
    intro i
    have harith : i + 1 + n = i + (n + 1) := by omega
    cases hp : polls i with
    | apiError =>
      simp only [waitForTaskAux, hp]
      rw [ih (i + 1), harith]
    | result status ex =>
      by_cases hst : status = "stopped"
      · by_cases hex : ex = some "OK"
        · exact absurd (hp.trans (by rw [hst, hex])) (hnever i)
        · simp only [waitForTaskAux, hp, if_pos hst, if_neg hex]
          rw [ih (i + 1), harith]
      · simp only [waitForTaskAux, hp, if_neg hst]
        rw [ih (i + 1), harith]

theorem waitForTaskAux_first (polls : Nat → TaskPoll) :
    ∀ (n i k : Nat), k < n →
      (∀ j, j < k → polls (i + j) ≠ .result "stopped" (some "OK")) →
      polls (i + k) = .result "stopped" (some "OK") →
      waitForTaskAux polls i n = .success (i + k + 1) := by
  intro n
  induction n with
  | zero => intro i k hk _ _; omega
  | succ n ih =>
    intro i k hk hbefore hsucc
    cases k with
    | zero =>
      have hp : polls i = .result "stopped" (some "OK") := by
        simpa using hsucc
      simp [waitForTaskAux, hp]
    | succ k =>
      have hp : polls i ≠ .result "stopped" (some "OK") := by
        have := hbefore 0 (Nat.succ_pos k)
        simpa using this
      have hrec : waitForTaskAux polls (i + 1) n = .success (i + 1 + k + 1) := by
        refine ih (i + 1) k (by omega) ?_ ?_
        · intro j hj
          have := hbefore (j + 1) (by omega)
          simpa [Nat.add_assoc, Nat.add_comm 1 j] using this
        · have : i + (k + 1) = i + 1 + k := by omega
          rw [← this]
          exact hsucc
      have harith : i + 1 + k + 1 = i + (k + 1) + 1 := by omega
      cases hpoll : polls i with
      | apiError =>
        simp only [waitForTaskAux, hpoll]
        rw [hrec, harith]
      | result status ex =>
        by_cases hst : status = "stopped"
        · by_cases hex : ex = some "OK"
          · exact absurd (hpoll.trans (by rw [hst, hex])) hp
          · simp only [waitForTaskAux, hpoll, if_pos hst, if_neg hex]
            rw [hrec, harith]
        · simp only [waitForTaskAux, hpoll, if_neg hst]
          rw [hrec, harith]

theorem waitForReadyAux_never (polls : Nat → ReadyPoll)
    (hnever : ∀ i, ¬ readySuccess (polls i)) :
    ∀ (n i : Nat), waitForReadyAux polls i n = .timeoutError (i + n) := by
  intro n
  induction n with
  | zero => intro i; simp [waitForReadyAux]
  | succ n ih =>
    intro i
    have harith : i + 1 + n = i + (n + 1) := by omega
    cases hp : polls i with
    | apiError =>
      simp only [waitForReadyAux, hp]
      rw [ih (i + 1), harith]
    | status s probe =>
      by_cases hst : s = "running"
      · cases probe with
        | true =>
          exact absurd (show readySuccess (polls i) by
            rw [hp, hst]; rfl) (hnever i)
        | false =>
          simp only [waitForReadyAux, hp, if_pos hst, if_neg (Bool.false_ne_true)]
          rw [ih (i + 1), harith]
      · simp only [waitForReadyAux, hp, if_neg hst]
        rw [ih (i + 1), harith]

theorem waitForReadyAux_first (polls : Nat → ReadyPoll) :
    ∀ (n i k : Nat), k < n →
      (∀ j, j < k → ¬ readySuccess (polls (i + j))) →
      readySuccess (polls (i + k)) →
      waitForReadyAux polls i n = .ready (i + k + 1) := by
  intro n
  induction n with
  | zero => intro i k hk _ _; omega
  | succ n ih =>
    intro i k hk hbefore hsucc
    cases k with
    | zero =>
      have hp : polls i = .status "running" true := by
        simpa [readySuccess] using hsucc
      simp [waitForReadyAux, hp]
    | succ k =>
      have hp : ¬ readySuccess (polls i) := by
        have := hbefore 0 (Nat.succ_pos k)
        simpa using this
      have hrec : waitForReadyAux polls (i + 1) n = .ready (i + 1 + k + 1) := by
        refine ih (i + 1) k (by omega) ?_ ?_
        · intro j hj
          have := hbefore (j + 1) (by omega)
          simpa [Nat.add_assoc, Nat.add_comm 1 j] using this
        · have : i + (k + 1) = i + 1 + k := by omega
          rw [← this]
          exact hsucc
      have harith : i + 1 + k + 1 = i + (k + 1) + 1 := by omega
      cases hpoll : polls i with
      | apiError =>
        simp only [waitForReadyAux, hpoll]
        rw [hrec, harith]
      | status s probe =>
        by_cases hst : s = "running"
        · cases probe with
          | true =>
            exact absurd (show readySuccess (polls i) by rw [hpoll, hst]; rfl) hp
          | false =>
            simp only [waitForReadyAux, hpoll, if_pos hst,
              if_neg (Bool.false_ne_true)]
            rw [hrec, harith]
        · simp only [waitForReadyAux, hpoll, if_neg hst]
          rw [hrec, harith]

/-! ## Claims C4 and C5 -/

/-- C4: with the fixed one-second interval, a predicate that never succeeds
makes exactly `d` poll attempts before the timeout error is raised, and a
predicate that first succeeds on the k-th attempt (k ≤ d) returns after
exactly k polls — no extra grace poll beyond the deadline boundary — for
both the task waiter and the container-readiness waiter. -/
theorem c4_waiter_poll_counts (taskPolls : Nat → TaskPoll)
    (readyPolls : Nat → ReadyPoll) (d : Nat) :
    ((∀ i, taskPolls i ≠ .result "stopped" (some "OK")) →
      waitForTask taskPolls d = .timeoutError d) ∧
    (∀ k, 1 ≤ k → k ≤ d →
      (∀ j, j < k - 1 → taskPolls j ≠ .result "stopped" (some "OK")) →
      taskPolls (k - 1) = .result "stopped" (some "OK") →
      waitForTask taskPolls d = .success k) ∧
    ((∀ i, ¬ readySuccess (readyPolls i)) →
      waitForContainerReady readyPolls d = .timeoutError d) ∧
    (∀ k, 1 ≤ k → k ≤ d →
      (∀ j, j < k - 1 → ¬ readySuccess (readyPolls j)) →
      readySuccess (readyPolls (k - 1)) →
      waitForContainerReady readyPolls d = .ready k) := by
  refine ⟨?_, ?_, ?_, ?_⟩
  · intro hnever
    have := waitForTaskAux_never taskPolls hnever d 0
    simpa [waitForTask] using this
  · intro k hk1 hkd hbefore hsucc
    have := waitForTaskAux_first taskPolls d 0 (k - 1) (by omega)
      (by intro j hj; simpa using hbefore j hj) (by simpa using hsucc)
    have harith : 0 + (k - 1) + 1 = k := by omega
    rw [harith] at this
    simpa [waitForTask] using this
  · intro hnever
    have := waitForReadyAux_never readyPolls hnever d 0
    simpa [waitForContainerReady] using this
  · intro k hk1 hkd hbefore hsucc
    have := waitForReadyAux_first readyPolls d 0 (k - 1) (by omega)
      (by intro j hj; simpa using hbefore j hj) (by simpa using hsucc)
    have harith : 0 + (k - 1) + 1 = k := by omega
    rw [harith] at this
    simpa [waitForContainerReady] using this

/-- Task poll stream that never reaches a terminal status. -/
def taskNeverPolls : Nat → TaskPoll := fun _ => .result "running" none

/-- Task poll stream that reaches `stopped`/`OK` on the second attempt. -/
def taskSecondPolls : Nat → TaskPoll :=
  fun i => if i = 0 then .result "running" none else .result "stopped" (some "OK")

/-- Ready poll stream whose container never runs. -/
def readyNeverPolls : Nat → ReadyPoll := fun _ => .status "stopped" false

/-- Ready poll stream that is running with a passing probe on the second
attempt. -/
def readySecondPolls : Nat → ReadyPoll :=
  fun i => if i = 0 then .status "running" false else .status "running" true

/-- C4 witness: the spec boundary example — deadline 3, never-succeeding
predicate gives exactly 3 polls then the timeout error; success on the 2nd
attempt returns after exactly 2 polls — for both waiters. -/
theorem c4_waiter_poll_counts_witness :
    waitForTask taskNeverPolls 3 = .timeoutError 3 ∧
    waitForTask taskSecondPolls 3 = .success 2 ∧
    waitForContainerReady readyNeverPolls 3 = .timeoutError 3 ∧
    waitForContainerReady readySecondPolls 3 = .ready 2 :=
  ⟨(c4_waiter_poll_counts taskNeverPolls readyNeverPolls 3).1
      (by intro i; simp [taskNeverPolls]),
   (c4_waiter_poll_counts taskSecondPolls readyNeverPolls 3).2.1 2
      (by decide) (by decide)
      (by intro j hj; have hj0 : j = 0 := by omega
          subst hj0; decide)
      (by decide),
   (c4_waiter_poll_counts taskNeverPolls readyNeverPolls 3).2.2.1
      (by intro i; simp [readyNeverPolls, readySuccess]),
   (c4_waiter_poll_counts taskNeverPolls readySecondPolls 3).2.2.2 2
      (by decide) (by decide)
      (by intro j hj; have hj0 : j = 0 := by omega
          subst hj0; decide)
      (by decide)⟩

/-- C5 (code bug evaluation): a task whose very first poll reports the
terminal failure `status = "stopped"`, `exitstatus = "ERROR"` does NOT make
`_wait_for_task` raise immediately: the `raise ProxmoxDeploymentError`
sits inside the `try` block whose own `except Exception` handler catches it,
so the loop keeps polling and, with deadline 3, performs all 3 polls and
ends in the timeout error — contradicting the claim that a terminal failure
is reported immediately with no further poll attempts. -/
theorem c5_failed_status_swallowed :
    waitForTask (fun _ => TaskPoll.result "stopped" (some "ERROR")) 3
      = .timeoutError 3 := by
  decide

/-! # Container configuration normalization (deployment.py,
deploy_single_service)

`deploy_single_service` loads `container.json` and normalizes it:
if the raw dict has a `container` key, the nested shape is mapped to the flat
one (missing keys raise `KeyError`, re-wrapped as `ProxmoxDeploymentError` by
the surrounding handler); otherwise the raw dict is passed through unchanged
under the comment `Assume flat structure` — there is no `ConfigShapeError`
and no validation of the flat shape anywhere in the sources. -/

/-- JSON-like values of the loaded `container.json`. -/
inductive JVal where
  | null
  | bool (b : Bool)
  | num (n : Int)
  | str (s : String)
  | arr (elems : List JVal)
  | obj (fields : List (String × JVal))

/-- First binding of a key in an association list (Python dict lookup). -/
def lookupFields : List (String × JVal) → String → Option JVal
  | [], _ => none
  | (k, v) :: rest, key => if k = key then some v else lookupFields rest key

/-- Python `d.get(key)` / `key in d`: `none` when the value is not a dict or
the key is absent. -/
def JVal.lookup : JVal → String → Option JVal
  | .obj fields, k => lookupFields fields k
  | _, _ => none

/-- Python `d[key]`: `KeyError` on a missing key, `TypeError` when the value
is not a dict. -/
def jGet (v : JVal) (k : String) : Except String JVal :=
  match v with
  | .obj fields =>
    match lookupFields fields k with
    | some x => .ok x
    | none => .error ("KeyError: " ++ k)
  | _ => .error ("TypeError: not a dict: " ++ k)

/-- Python truthiness of a JSON value (`if container_config[...]:`). -/
def JVal.truthy : JVal → Bool
  | .null => false
  | .bool b => b
  | .num n => n != 0
  | .str s => s != ""
  | .arr l => !l.isEmpty
  | .obj f => !f.isEmpty

/-- Normalization step of `deploy_single_service` (lines 154–174): the raw
config is mapped to the flat shape when it has a `container` key — reading
the nested keys in the order the Python dict literal evaluates them — and is
otherwise assumed flat and returned unchanged. -/
def normalizeContainerConfig (raw : JVal) : Except String JVal :=
  match raw.lookup "container" with
  | some c => do
    let cid ← jGet c "id"
    let host ← jGet c "hostname"
    let ip ← jGet c "ip"
    let res1 ← jGet c "resources"
    let cpu ← jGet res1 "cpu"
    let res2 ← jGet c "resources"
    let mem ← jGet res2 "memory"
    let res3 ← jGet c "resources"
    let disk ← jGet res3 "disk"
    let feats := (c.lookup "features").getD (.arr [])
    let base := [("container_id", cid), ("hostname", host), ("ip_address", ip),
      ("cpu_cores", cpu), ("memory_mb", mem), ("disk_gb", disk),
      ("features", feats)]
    match c.lookup "nfs_mounts" with
    | some m => if m.truthy then pure (.obj (base ++ [("mounts", m)]))
                else pure (.obj base)
    | none => pure (.obj base)
  | none => pure raw

/-- Modelled from the spec: the documented nested raw shape
(`container.id/hostname/ip/resources.cpu/resources.memory/resources.disk`).
This follows the spec wording; the code never checks this predicate. -/
def matchesNestedShape (raw : JVal) : Bool :=
  match raw.lookup "container" with
  | some c =>
    (c.lookup "id").isSome && (c.lookup "hostname").isSome &&
    (c.lookup "ip").isSome &&
    (match c.lookup "resources" with
     | some r => (r.lookup "cpu").isSome && (r.lookup "memory").isSome &&
         (r.lookup "disk").isSome
     | none => false)
  | none => false

/-- Modelled from the spec: the documented flat raw shape
(`container_id/hostname/ip_address/cpu_cores/memory_mb/disk_gb`).  The code
never checks this predicate either. -/
def matchesFlatShape (raw : JVal) : Bool :=
  (raw.lookup "container_id").isSome && (raw.lookup "hostname").isSome &&
  (raw.lookup "ip_address").isSome && (raw.lookup "cpu_cores").isSome &&
  (raw.lookup "memory_mb").isSome && (raw.lookup "disk_gb").isSome

/-- Raw configuration matching neither documented shape: no `container` key
and almost none of the flat keys. -/
def badRawConfig : JVal := .obj [("container_id", .num 105)]

/-- C6 counterexample: `badRawConfig` matches neither the nested nor the
flat documented shape, yet normalization succeeds and passes it through
unchanged — no `ConfigShapeError` (no such error exists in the sources), so
deployment proceeds to container creation with this configuration. -/
theorem c6_no_shape_error_counterexample :
    matchesNestedShape badRawConfig = false ∧
    matchesFlatShape badRawConfig = false ∧
    normalizeContainerConfig badRawConfig = .ok badRawConfig := by
  refine ⟨rfl, rfl, rfl⟩

/-- C6 (amended): normalization only inspects the presence of the
`container` key.  Without it the raw config is assumed flat and passed
through unchanged — with no shape validation and no tagged shape error of
any kind; with it, the nested mapping is applied and a missing required
nested key (here: `id`) produces a generic KeyError-derived deployment
error, not a tagged `ConfigShapeError`. -/
theorem c6_normalization_amended (raw c : JVal) :
    (raw.lookup "container" = none →
      normalizeContainerConfig raw = .ok raw) ∧
    (raw.lookup "container" = some c → c.lookup "id" = none →
      ∃ e, normalizeContainerConfig raw = .error e) := by
  constructor
  · intro h
    simp only [normalizeContainerConfig, h]
    rfl
  · intro hc hid
    have hjg : ∃ msg, jGet c "id" = Except.error msg := by
      cases c with
      | obj fields =>
        refine ⟨"KeyError: " ++ "id", ?_⟩
        have hl : lookupFields fields "id" = none := hid
        simp only [jGet, hl]
      | null => exact ⟨_, rfl⟩
      | bool b => exact ⟨_, rfl⟩
      | num n => exact ⟨_, rfl⟩
      | str s => exact ⟨_, rfl⟩
      | arr l => exact ⟨_, rfl⟩
    obtain ⟨msg, hmsg⟩ := hjg
    refine ⟨msg, ?_⟩
    simp only [normalizeContainerConfig, hc, hmsg]
    rfl

/-- C6 witness: the amended statement applied to `badRawConfig` (flat
pass-through) and to a nested config missing `id`. -/
theorem c6_normalization_witness :
    normalizeContainerConfig badRawConfig = .ok badRawConfig ∧
    ∃ e, normalizeContainerConfig (.obj [("container", .obj [])]) = .error e :=
  ⟨(c6_normalization_amended badRawConfig (.obj [])).1 rfl,
   (c6_normalization_amended (.obj [("container", .obj [])]) (.obj [])).2 rfl rfl⟩

/-! # Remote command execution (deployment.py, _execute_in_container)

The subprocess call either completes with a return code or exceeds the fixed
`timeout=300` and raises `subprocess.TimeoutExpired`.  A non-zero return code
raises `ProxmoxDeploymentError("Command failed with exit code ...")` inside
the `try`; that exception is caught by the final `except Exception` handler
and re-raised as `ProxmoxDeploymentError("Failed to execute command in
container {id}: {e}")`.  The `TimeoutExpired` is caught by its dedicated
handler and re-raised as `ProxmoxDeploymentError("Command timed out in
container {id}")`.  Every error leaving the function therefore has the same
exception class; messages are kept structured, one constructor per f-string
of the source. -/

/-- Structured messages of the executor's `ProxmoxDeploymentError`s. -/
inductive ExecErrMsg where
  | commandFailed (returncode : Int) (stderr : String)
  | commandTimedOut (containerId : Nat)
  | failedToExecute (containerId : Nat) (inner : ExecErrMsg)
deriving DecidableEq

/-- A raised Python exception: class name and structured message. -/
structure PyExc where
  cls : String
  msg : ExecErrMsg
deriving DecidableEq

/-- Behavior of `subprocess.run(['pct', 'exec', ...], timeout=300)`. -/
inductive RunOutcome where
  | completed (returncode : Int) (stdout : String) (stderr : String)
  | timedOut
deriving DecidableEq

/-- `_execute_in_container(container_id, command)`. -/
def executeInContainer (containerId : Nat) (run : RunOutcome) :
    Except PyExc String :=
  match run with
  | .completed rc out err =>
    if rc ≠ 0 then
      .error { cls := "ProxmoxDeploymentError",
               msg := .failedToExecute containerId (.commandFailed rc err) }
    else .ok out
  | .timedOut =>
    .error { cls := "ProxmoxDeploymentError",
             msg := .commandTimedOut containerId }

/-- Exception class of a failed execution, if any. -/
def errClass : Except PyExc String → Option String
  | .error e => some e.cls
  | .ok _ => none

/-- C7 counterexample: at container 100, exceeding the 300-second command
timeout and completing with exit code 1 raise errors of the same class
(`ProxmoxDeploymentError` in both cases) — there is no separate
`CommandTimeoutError` kind in the sources, so the two failures are not
distinguishable as different error kinds. -/
theorem c7_same_error_class_counterexample :
    errClass (executeInContainer 100 .timedOut)
      = errClass (executeInContainer 100 (.completed 1 "" "boom")) ∧
    errClass (executeInContainer 100 .timedOut)
      = some "ProxmoxDeploymentError" :=
  ⟨rfl, rfl⟩

/-- C7 (amended): both outcomes raise the single class
`ProxmoxDeploymentError`; they are distinguishable only by message — the
timeout renders "Command timed out in container {id}" while a non-zero exit
renders the wrapped "Failed to execute command in container {id}: Command
failed with exit code {rc}: {stderr}" — and for every container id, exit
code and stderr the two messages differ. -/
theorem c7_timeout_and_failure_same_class_distinct_message
    (containerId : Nat) (rc : Int) (out err : String) (hrc : rc ≠ 0) :
    executeInContainer containerId .timedOut
      = .error { cls := "ProxmoxDeploymentError",
                 msg := .commandTimedOut containerId } ∧
    executeInContainer containerId (.completed rc out err)
      = .error { cls := "ProxmoxDeploymentError",
                 msg := .failedToExecute containerId (.commandFailed rc err) } ∧
    ExecErrMsg.commandTimedOut containerId
      ≠ ExecErrMsg.failedToExecute containerId (.commandFailed rc err) := by
  refine ⟨rfl, ?_, by simp⟩
  simp only [executeInContainer, if_pos hrc]

/-- C7 witness: the amended statement at container 100, exit code 1. -/
theorem c7_timeout_and_failure_witness :
    executeInContainer 100 .timedOut
      = .error { cls := "ProxmoxDeploymentError",
                 msg := .commandTimedOut 100 } ∧
    executeInContainer 100 (.completed 1 "" "boom")
      = .error { cls := "ProxmoxDeploymentError",
                 msg := .failedToExecute 100 (.commandFailed 1 "boom") } ∧
    ExecErrMsg.commandTimedOut 100
      ≠ ExecErrMsg.failedToExecute 100 (.commandFailed 1 "boom") :=
  c7_timeout_and_failure_same_class_distinct_message 100 1 "" "boom" (by decide)

/-! # Descriptor upload (deployment.py, _upload_file_to_container)

The content is written with `cat > path << 'EOF_HOMELAB_DEPLOY'` followed by
the content and the delimiter line.  The quoted heredoc suppresses all shell
expansion, so the written bytes are exactly the heredoc body: the lines of
`content ++ "\n" ++ delimiter` strictly before the first line equal to the
delimiter, each terminated by a newline.  This is modelled at the byte (char
list) level. -/

/-- The fixed heredoc delimiter of `_upload_file_to_container`. -/
def heredocDelim : List Char := "EOF_HOMELAB_DEPLOY".data

/-- Newline-splitting of a byte sequence as the shell reads heredoc lines. -/
def splitNl : List Char → List (List Char)
  | [] => [[]]
  | c :: cs =>
    match splitNl cs with
    | [] => [[c]]
    | l :: ls => if c = '\n' then [] :: l :: ls else (c :: l) :: ls

/-- Concatenation of lines, terminating every line with a newline — what
`cat` receives from the heredoc and writes to the file. -/
def joinNl : List (List Char) → List Char
  | [] => []
  | l :: ls => l ++ '\n' :: joinNl ls

/-- Bytes written to `/opt/{service}/docker-compose.yml` by
`_upload_file_to_container(container_id, content, path)`. -/
def heredocUpload (content : String) : List Char :=
  joinNl ((splitNl (content.data ++ '\n' :: heredocDelim)).takeWhile
    (fun l => l ≠ heredocDelim))

theorem splitNl_ne_nil : ∀ l : List Char, splitNl l ≠ [] := by
  intro l
  cases l with
  | nil => simp [splitNl]
  | cons c cs =>
    simp only [splitNl]
    cases h : splitNl cs with
    | nil => simp
    | cons l2 ls2 =>
      by_cases hc : c = '\n'
      · simp [hc]
      · simp [hc]

theorem splitNl_append : ∀ (a b : List Char),
    splitNl (a ++ '\n' :: b) = splitNl a ++ splitNl b := by
  intro a
  induction a with
  | nil =>
    intro b
    cases h : splitNl b with
    | nil => exact absurd h (splitNl_ne_nil b)
    | cons l ls => simp [splitNl, h]
  | cons c cs ih =>
    intro b
    have hih := ih b
    cases h : splitNl (cs ++ '\n' :: b) with
    | nil => exact absurd h (splitNl_ne_nil _)
    | cons l ls =>
      cases h2 : splitNl cs with
      | nil => exact absurd h2 (splitNl_ne_nil cs)
      | cons l2 ls2 =>
        rw [h, h2] at hih
        simp only [List.cons_append, List.cons.injEq] at hih
        obtain ⟨hl, hls⟩ := hih
        by_cases hc : c = '\n'
        · subst hc
          simp [splitNl, h, h2, hl, hls]
        · simp [splitNl, h, h2, hc, hl, hls]

theorem joinNl_splitNl : ∀ l : List Char, joinNl (splitNl l) = l ++ ['\n'] := by
  intro l
  induction l with
  | nil => rfl
  | cons c cs ih =>
    cases h : splitNl cs with
    | nil => exact absurd h (splitNl_ne_nil cs)
    | cons l2 ls2 =>
      have hj : joinNl (l2 :: ls2) = cs ++ ['\n'] := by rw [← h]; exact ih
      by_cases hc : c = '\n'
      · subst hc
        simp only [splitNl, h, if_pos rfl, joinNl, List.nil_append]
        rw [show l2 ++ '\n' :: joinNl ls2 = joinNl (l2 :: ls2) from rfl, hj]
        rfl
      · simp only [splitNl, h, if_neg hc, joinNl, List.cons_append]
        rw [show l2 ++ '\n' :: joinNl ls2 = joinNl (l2 :: ls2) from rfl, hj]

theorem takeWhile_append_all {α : Type} (p : α → Bool) :
    ∀ (l1 l2 : List α), (∀ x ∈ l1, p x = true) →
      (l1 ++ l2).takeWhile p = l1 ++ l2.takeWhile p := by
  intro l1
  induction l1 with
  | nil => intro l2 _; rfl
  | cons x xs ih =>
    intro l2 h
    have hx := h x (List.mem_cons_self x xs)
    simp only [List.cons_append, List.takeWhile_cons, hx, if_true]
    rw [ih l2 (fun y hy => h y (List.mem_cons_of_mem x hy))]

/-- C8 counterexample: uploading the five bytes `hello` writes six bytes
`hello` + newline: the bytes read back are not equal to the bytes given, so
the transfer is not byte-for-byte exact. -/
theorem c8_not_byte_exact_counterexample :
    heredocUpload "hello" = ("hello\n").data ∧
    heredocUpload "hello" ≠ ("hello").data := by
  decide

/-- C8 (amended): for every content none of whose lines equals the heredoc
delimiter `EOF_HOMELAB_DEPLOY`, the upload writes exactly the given bytes
followed by one extra trailing newline; shell metacharacters are not
interpreted (the embedding is the quoted-heredoc semantics, which performs
no expansion).  A content line equal to the delimiter truncates the upload
at that line. -/
theorem c8_upload_appends_trailing_newline (content : String)
    (h : ∀ l ∈ splitNl content.data, l ≠ heredocDelim) :
    heredocUpload content = content.data ++ ['\n'] := by
  unfold heredocUpload
  rw [splitNl_append content.data heredocDelim]
  have hall : ∀ x ∈ splitNl content.data,
      (decide (x ≠ heredocDelim)) = true :=
    fun x hx => decide_eq_true (h x hx)
  rw [takeWhile_append_all _ _ _ hall]
  have hd : splitNl heredocDelim = [heredocDelim] := by decide
  rw [hd]
  have ht : List.takeWhile (fun l => decide (l ≠ heredocDelim))
      [heredocDelim] = [] := by decide
  rw [ht, List.append_nil]
  exact joinNl_splitNl content.data

/-- C8 witness: the amended statement evaluated at content `hello`. -/
theorem c8_upload_appends_trailing_newline_witness :
    heredocUpload "hello" = ("hello").data ++ ['\n'] :=
  c8_upload_appends_trailing_newline "hello" (by decide)

/-! # Deployment run (deploy.py, deploy_services_impl)

Both the verbose branch and the progress-bar branch run the same plain loop
`for service_name in services: deployer.deploy_single_service(...)`.  The
first raise propagates out of the loop (the surrounding handler prints and
bare-re-raises), so later plan entries are not attempted; the sources
contain no rollback or compensation code at all, which is why the event
vocabulary below has no teardown action. -/

/-- Observable per-service events of one deployment run. -/
inductive DeployEvent where
  | deployed (name : String)
  | failed (name : String)
deriving DecidableEq

/-- `deploy_services_impl(services, config)` with the per-service
provisioning `deploy_single_service` abstracted as `f`; returns the ordered
event trace and the propagated exception, if any. -/
def deployServicesImpl (f : String → Except PyExc Unit) :
    List String → List DeployEvent × Option PyExc
  | [] => ([], none)
  | s :: rest =>
    match f s with
    | .ok _ =>
      let r := deployServicesImpl f rest
      (.deployed s :: r.1, r.2)
    | .error e => ([.failed s], some e)

/-- C9: if provisioning fails at plan position i (and succeeded before it),
the run's trace is exactly the successful deployments of positions 0..i-1 in
order followed by the single failure at i: no later plan entry is attempted,
the error propagates, and no other action — in particular no rollback of the
earlier services, which stay deployed — is issued. -/
theorem c9_first_failure_aborts_without_rollback
    (f : String → Except PyExc Unit) (services : List String) (i : Nat)
    (e : PyExc) (hi : i < services.length)
    (hok : ∀ j (hj : j < i), f (services.get ⟨j, Nat.lt_trans hj hi⟩) = .ok ())
    (herr : f (services.get ⟨i, hi⟩) = .error e) :
    deployServicesImpl f services
      = ((services.take i).map DeployEvent.deployed
          ++ [DeployEvent.failed (services.get ⟨i, hi⟩)], some e) := by
  induction services generalizing i with
  | nil => exact absurd hi (Nat.not_lt_zero i)
  | cons s rest ih =>
    cases i with
    | zero =>
      have hs : f s = .error e := herr
      simp only [deployServicesImpl, hs, List.take_zero, List.map_nil,
        List.nil_append]
      rfl
    | succ i =>
      have hs : f s = .ok () := hok 0 (Nat.succ_pos i)
      have hi2 : i < rest.length := Nat.lt_of_succ_lt_succ hi
      have hrec := ih i hi2
        (fun j hj => hok (j + 1) (Nat.succ_lt_succ hj))
        herr
      simp only [deployServicesImpl, hs, hrec, List.take_succ_cons,
        List.map_cons, List.cons_append]
      rfl

/-- Per-service outcomes where `monitoring` fails and everything else
succeeds. -/
def demoOutcome : String → Except PyExc Unit :=
  fun s => if s = "monitoring"
    then .error { cls := "ProxmoxDeploymentError", msg := .commandTimedOut 105 }
    else .ok ()

/-- C9 witness: in the plan [pihole, monitoring, authentik] with monitoring
failing, the trace is deployed(pihole), failed(monitoring) — authentik is
never attempted and pihole is not rolled back. -/
theorem c9_first_failure_witness :
    deployServicesImpl demoOutcome ["pihole", "monitoring", "authentik"]
      = ([.deployed "pihole", .failed "monitoring"],
         some { cls := "ProxmoxDeploymentError", msg := .commandTimedOut 105 }) := by
  have h := c9_first_failure_aborts_without_rollback demoOutcome
    ["pihole", "monitoring", "authentik"] 1
    { cls := "ProxmoxDeploymentError", msg := .commandTimedOut 105 }
    (by decide)
    (by
      intro j hj
      have hj0 : j = 0 := by omega
      subst hj0
      rfl)
    rfl
  exact h

/-! # Container creation parameters (deployment.py, _create_container) and
preflight networking (setup_networking)

`_create_container` reads `container_id`, `hostname` and `ip_address` from
the flat config (KeyError when absent — before any cluster call), then
builds the `create_params` dict.  The network interface line is the
f-string `name=eth0,bridge=vmbr0,ip={ip_address}/24,gw={management_gateway}`
— the bridge name `vmbr0` is a literal — and `nameserver` is the literal
`8.8.8.8,8.8.4.4`.  `setup_networking`, by contrast, checks and creates the
configured `config.network.container_bridge` (default `vmbr1`). -/

/-- The configuration fields `_create_container` and `setup_networking`
read: `config.network.management_gateway`, `config.network.container_gateway`,
`config.network.container_bridge`, `config.proxmox.template`,
`config.cluster.domain`. -/
structure CfgModel where
  managementGateway : String
  containerGateway : String
  containerBridge : String
  template : String
  domain : String

/-- Default of the `container_bridge` field (models.py, NetworkConfig). -/
def defaultContainerBridge : String := "vmbr1"

/-- Python `str()` of the atomic JSON values that occur in the container
spec fields used in f-strings (composite values do not occur in those
fields and their rendering is irrelevant to every property proved here). -/
def pyStr : JVal → String
  | .str s => s
  | .num n => toString n
  | .bool b => if b then "True" else "False"
  | .null => "None"
  | .arr _ => "<arr>"
  | .obj _ => "<obj>"

/-- `_get_safe_features`: starts from `['nesting=1']` and the loop over the
configured features skips `nesting=1` and adds nothing else, so the result
is always `nesting=1`. -/
def getSafeFeatures (_cc : JVal) : String :=
  String.intercalate "," ["nesting=1"]

/-- Mount entries `mp{i} = "{source},{target}"` (+ `,ro=1` when `readonly`
is truthy), from `enumerate(container_config['mounts'])`. -/
def mountParams : Nat → List JVal → Except String (List (String × JVal))
  | _, [] => .ok []
  | i, mnt :: rest => do
    let src ← jGet mnt "source"
    let tgt ← jGet mnt "target"
    let ro := (mnt.lookup "readonly").getD (.bool false)
    let base := pyStr src ++ "," ++ pyStr tgt
    let v := if ro.truthy then base ++ ",ro=1" else base
    let others ← mountParams (i + 1) rest
    .ok (("mp" ++ toString i, JVal.str v) :: others)

/-- Mount parameters of a truthy `container_config['mounts']` value: the
Python `enumerate` loop expects a list of dicts; anything else fails with a
TypeError when the entries are indexed. -/
def mountsSection (m : JVal) : Except String (List (String × JVal)) :=
  match m with
  | .arr mounts => mountParams 0 mounts
  | _ => .error "TypeError: mounts is not a list"

/-- The `create_params` dict passed to `proxmox.nodes(node).lxc.post` by
`_create_container`, in source order.  Reading `container_id`, `hostname`
and `ip_address` happens first (function lines 192–194) and any KeyError
there aborts before any cluster call. -/
def createParams (cfg : CfgModel) (serviceName : String) (cc : JVal) :
    Except String (List (String × JVal)) :=
  match jGet cc "container_id" with
  | .error e => .error e
  | .ok cid =>
    match jGet cc "hostname" with
    | .error e => .error e
    | .ok host =>
      match jGet cc "ip_address" with
      | .error e => .error e
      | .ok ip =>
        let cores := (cc.lookup "cpu_cores").getD (.num 1)
        let mem := (cc.lookup "memory_mb").getD (.num 512)
        let disk := (cc.lookup "disk_gb").getD (.num 8)
        let base := [("vmid", cid), ("hostname", host),
          ("ostemplate", JVal.str cfg.template),
          ("cores", cores), ("memory", mem),
          ("rootfs", JVal.str ("local-lvm:" ++ pyStr disk)),
          ("net0", JVal.str ("name=eth0,bridge=vmbr0,ip=" ++ pyStr ip
            ++ "/24,gw=" ++ cfg.managementGateway)),
          ("nameserver", JVal.str "8.8.8.8,8.8.4.4"),
          ("searchdomain", JVal.str cfg.domain),
          ("features", JVal.str (getSafeFeatures cc)),
          ("unprivileged", JVal.num 1), ("onboot", JVal.num 1),
          ("startup", JVal.str "order=1"),
          ("description", JVal.str ("Homelab service: " ++ serviceName))]
        match cc.lookup "mounts" with
        | some m =>
          if m.truthy then
            match mountsSection m with
            | .ok mps => .ok (base ++ mps)
            | .error e => .error e
          else .ok base
        | none => .ok base

/-- Preflight action of `setup_networking`: query the existing interfaces
and create the configured container bridge (with the configured gateway as
address) only when it is absent. -/
inductive NetSetupAction where
  | alreadyExists
  | createBridge (iface : String) (address : String)
deriving DecidableEq

/-- `setup_networking` decision. -/
def setupNetworking (cfg : CfgModel) (existingIfaces : List String) :
    NetSetupAction :=
  if cfg.containerBridge ∈ existingIfaces then .alreadyExists
  else .createBridge cfg.containerBridge cfg.containerGateway

/-- C10: for every configuration and container spec whose creation
parameters are successfully built, the creation request fixes the network
attachment to the literal bridge `vmbr0` and the literal nameservers
`8.8.8.8,8.8.4.4`; the parameters are entirely independent of the configured
`container_bridge` (default `vmbr1`); and the preflight `setup_networking`
bases its check-or-create decision exactly on that configured
`container_bridge` — the bridge it manages is not the one containers are
attached to. -/
theorem c10_create_attaches_vmbr0_and_fixed_dns
    (cfg : CfgModel) (serviceName : String) (cc : JVal)
    (params : List (String × JVal))
    (h : createParams cfg serviceName cc = .ok params) :
    (("nameserver", JVal.str "8.8.8.8,8.8.4.4") ∈ params ∧
     ∃ ip, ("net0", JVal.str ("name=eth0,bridge=vmbr0,ip=" ++ ip
       ++ "/24,gw=" ++ cfg.managementGateway)) ∈ params) ∧
    (∀ cb, createParams { cfg with containerBridge := cb } serviceName cc
      = createParams cfg serviceName cc) ∧
    defaultContainerBridge = "vmbr1" ∧
    (∀ ifaces, setupNetworking cfg ifaces = NetSetupAction.alreadyExists ↔
      cfg.containerBridge ∈ ifaces) := by
  refine ⟨?_, fun cb => rfl, rfl, ?_⟩
  · cases hcid : jGet cc "container_id" with
    | error e =>
      simp only [createParams, hcid] at h
      exact Except.noConfusion h
    | ok cid =>
      cases hhost : jGet cc "hostname" with
      | error e =>
        simp only [createParams, hcid, hhost] at h
        exact Except.noConfusion h
      | ok host =>
        cases hip : jGet cc "ip_address" with
        | error e =>
          simp only [createParams, hcid, hhost, hip] at h
          exact Except.noConfusion h
        | ok ipv =>
          simp only [createParams, hcid, hhost, hip] at h
          cases hm : cc.lookup "mounts" with
          | none =>
            simp only [hm] at h
            injection h with h2
            subst h2
            exact ⟨by simp, ⟨pyStr ipv, by simp⟩⟩
          | some m =>
            simp only [hm] at h
            by_cases hmt : m.truthy = true
            case neg =>
              rw [if_neg hmt] at h
              injection h with h2
              subst h2
              exact ⟨by simp, ⟨pyStr ipv, by simp⟩⟩
            case pos =>
              rw [if_pos hmt] at h
              cases hms : mountsSection m with
              | error e =>
                simp only [hms] at h
                exact Except.noConfusion h
              | ok mps =>
                simp only [hms] at h
                injection h with h2
                subst h2
                refine ⟨List.mem_append_left _ (by simp),
                  ⟨pyStr ipv, List.mem_append_left _ (by simp)⟩⟩
  · intro ifaces
    by_cases hmem : cfg.containerBridge ∈ ifaces
    · simp [setupNetworking, hmem]
    · simp [setupNetworking, hmem]

/-- Flat container spec of the spec scenario: container 105 at 10.0.0.45. -/
def demoFlatConfig : JVal := .obj
  [("container_id", .num 105), ("hostname", .str "pihole"),
   ("ip_address", .str "10.0.0.45"), ("cpu_cores", .num 1),
   ("memory_mb", .num 512), ("disk_gb", .num 8)]

/-- Configuration used by the C10 witness. -/
def demoCfg : CfgModel :=
  { managementGateway := "192.168.1.1", containerGateway := "10.0.0.1",
    containerBridge := "vmbr1", template := "local:vztmpl/ubuntu.tar.zst",
    domain := "example.com" }

/-- C10 witness: the theorem applied to the concrete configuration above. -/
theorem c10_create_attaches_vmbr0_witness :
    (("nameserver", JVal.str "8.8.8.8,8.8.4.4")
        ∈ [("vmid", JVal.num 105), ("hostname", JVal.str "pihole"),
          ("ostemplate", JVal.str "local:vztmpl/ubuntu.tar.zst"),
          ("cores", JVal.num 1), ("memory", JVal.num 512),
          ("rootfs", JVal.str "local-lvm:8"),
          ("net0", JVal.str "name=eth0,bridge=vmbr0,ip=10.0.0.45/24,gw=192.168.1.1"),
          ("nameserver", JVal.str "8.8.8.8,8.8.4.4"),
          ("searchdomain", JVal.str "example.com"),
          ("features", JVal.str "nesting=1"),
          ("unprivileged", JVal.num 1), ("onboot", JVal.num 1),
          ("startup", JVal.str "order=1"),
          ("description", JVal.str "Homelab service: pihole")] ∧
     ∃ ip, ("net0", JVal.str ("name=eth0,bridge=vmbr0,ip=" ++ ip
       ++ "/24,gw=" ++ demoCfg.managementGateway))
        ∈ [("vmid", JVal.num 105), ("hostname", JVal.str "pihole"),
          ("ostemplate", JVal.str "local:vztmpl/ubuntu.tar.zst"),
          ("cores", JVal.num 1), ("memory", JVal.num 512),
          ("rootfs", JVal.str "local-lvm:8"),
          ("net0", JVal.str "name=eth0,bridge=vmbr0,ip=10.0.0.45/24,gw=192.168.1.1"),
          ("nameserver", JVal.str "8.8.8.8,8.8.4.4"),
          ("searchdomain", JVal.str "example.com"),
          ("features", JVal.str "nesting=1"),
          ("unprivileged", JVal.num 1), ("onboot", JVal.num 1),
          ("startup", JVal.str "order=1"),
          ("description", JVal.str "Homelab service: pihole")]) ∧
    (∀ cb, createParams { demoCfg with containerBridge := cb } "pihole" demoFlatConfig
      = createParams demoCfg "pihole" demoFlatConfig) ∧
    defaultContainerBridge = "vmbr1" ∧
    (∀ ifaces, setupNetworking demoCfg ifaces = NetSetupAction.alreadyExists ↔
      demoCfg.containerBridge ∈ ifaces) :=
  c10_create_attaches_vmbr0_and_fixed_dns demoCfg "pihole" demoFlatConfig _ rfl
